import Mathlib

/-!
Verification development for the mygram photo-portfolio repository.

The repository consists of a shell ingestion pipeline
(scripts/process-photos.sh), an Instagram import script
(import-instagram.sh), and browser-side modules (js/lightbox.js,
js/timeline.js, js/admin.js).  This file gives a shallow embedding of the
data model (the data/photos.json manifest) and of the operations the
specification claims speak about, and proves or refutes each claim.

Modelling conventions:
- filenames, slugs, dates and captions are Lean Strings; character-level
  operations are defined on List Char and wrapped;
- the shell tr upper lower (C locale) is modelled by Char.toLower, which
  lowercases exactly the ASCII letters; JavaScript toLowerCase is modelled
  by jsLowerChar, which lowercases ASCII and carries the two Unicode
  lowercasings that land inside the slug alphabet (U+0130 and U+212A) and
  therefore make the browser and shell slugs diverge;
- external effects (exiftool output, ImageMagick / ffmpeg success or
  failure, the date command, files on disk) are oracles passed in as
  explicit environment records;
- a directory is a list of filenames; the list passed to a run is the
  shell glob expansion of photos/originals/* at loop start.
-/

set_option maxHeartbeats 1000000

/-! ## Character-level utilities shared by the sanitizer and the slug pipelines -/

/-- One step of run-collapsing: the Bool says whether the previous emitted
character was a hyphen (the sed hyphen-run substitution keeps one hyphen per run). -/
def collapseAux : Bool → List Char → List Char
  | _, [] => []
  | prevHyphen, c :: rest =>
    if c = '-' then
      if prevHyphen then collapseAux true rest
      else '-' :: collapseAux true rest
    else c :: collapseAux false rest

/-- Collapse every run of hyphens to a single hyphen (the sed hyphen-run
substitution, and the JavaScript replace of a hyphen-run regex). -/
def collapseHyphens (l : List Char) : List Char := collapseAux false l

/-- Remove one leading hyphen (the first half of the sed trim expression, and the
start-anchored half of the JavaScript trim regex). -/
def dropLeadHyphen : List Char → List Char
  | [] => []
  | c :: rest => if c = '-' then rest else c :: rest

/-- Remove one trailing hyphen (the second half of the sed trim expression, and the
end-anchored half of the JavaScript trim regex). -/
def dropTrailHyphen (l : List Char) : List Char := (dropLeadHyphen l.reverse).reverse

/-- The sed trim expression: strip one leading and one trailing hyphen. -/
def trimHyphens (l : List Char) : List Char := dropTrailHyphen (dropLeadHyphen l)

/-- POSIX [[:space:]] in the sanitizer sed expression. -/
def isSpaceCh (c : Char) : Bool :=
  c = ' ' || c = '\t' || c = '\n' || c = '\r' || c = Char.ofNat 11 || c = Char.ofNat 12

/-- The character class kept by the filename sanitizer, [a-zA-Z0-9._-]. -/
def sanitizeKeep (c : Char) : Bool :=
  c.isUpper || c.isLower || c.isDigit || c = '.' || c = '_' || c = '-'

/-- process-photos.sh line 109: replace whitespace and characters outside
[a-zA-Z0-9._-] with hyphens, collapse hyphen runs, strip one leading and one
trailing hyphen.  Whitespace is outside the kept class, so the two sed
substitutions amount to one character map. -/
def sanitizeChars (l : List Char) : List Char :=
  trimHyphens (collapseHyphens (l.map (fun c => if sanitizeKeep c then c else '-')))

def sanitize (s : String) : String := ⟨sanitizeChars s.data⟩

/-- Shell ${f%.*}: drop the shortest suffix starting with a dot, i.e.
everything from the last dot on; if there is no dot the string is unchanged. -/
def stripExtShellChars (l : List Char) : List Char :=
  match l.reverse.dropWhile (fun c => c ≠ '.') with
  | [] => l
  | _ :: rest => rest.reverse

def stripExtShell (s : String) : String := ⟨stripExtShellChars s.data⟩

/-- JavaScript replace of the extension regex (a dot followed by one or more
non-dot characters, end-anchored) by the empty string: the suffix after the
last dot is removed only when it is non-empty; a name ending in a dot, or
without a dot, is unchanged. -/
def stripExtJsChars (l : List Char) : List Char :=
  let r := l.reverse
  if (r.takeWhile (fun c => c ≠ '.')).isEmpty then l
  else
    match r.dropWhile (fun c => c ≠ '.') with
    | [] => l
    | _ :: rest => rest.reverse

def stripExtJs (s : String) : String := ⟨stripExtJsChars s.data⟩

/-- Shell ${f##*.}: the part after the last dot; the whole string when there
is no dot. -/
def extOfChars (l : List Char) : List Char :=
  let t := l.reverse.takeWhile (fun c => c ≠ '.')
  if t.length = l.length then l else t.reverse

def extOf (s : String) : String := ⟨extOfChars s.data⟩

/-- The character class kept by both slug pipelines, [a-z0-9-]. -/
def slugKeep (c : Char) : Bool := c.isLower || c.isDigit || c = '-'

/-- Lowercase then replace characters outside [a-z0-9-] by hyphens: the
shell side, tr upper lower in the C locale piped into sed. -/
def slugMapChar (c : Char) : Char :=
  if slugKeep c.toLower then c.toLower else '-'

/-- The tr plus sed tail of the shell slug pipelines (process-photos.sh
and the import), after extension stripping. -/
def slugCore (l : List Char) : List Char :=
  trimHyphens (collapseHyphens (l.map slugMapChar))

/-- process-photos.sh line 249: slug of a filename (extension stripped the
shell way, then lowercase, non [a-z0-9-] to hyphen, collapse, trim). -/
def shellSlugOf (filename : String) : String :=
  ⟨slugCore (stripExtShellChars filename.data)⟩

/-- JavaScript toLowerCase, as the slug pipelines observe it.  On ASCII
it lowercases A-Z.  Exactly two characters have Unicode lowercasings that
land inside the slug alphabet from outside ASCII, and they are mapped
exactly: U+0130 (Latin capital I with dot above) lowercases to i followed
by U+0307 (combining dot above), and U+212A (the Kelvin sign) lowercases
to k.  Every other character is either unchanged by toLowerCase or
lowercased to another character outside [a-z0-9-]; both become a single
hyphen at the replace stage that always follows, so mapping them to
themselves is observationally exact. -/
def jsLowerChar (c : Char) : List Char :=
  if c = Char.ofNat 0x130 then ['i', Char.ofNat 0x307]
  else if c = Char.ofNat 0x212A then ['k']
  else [c.toLower]

/-- lightbox.js / timeline.js slugFor fallback applied to a bare filename:
extension stripped the JavaScript way, Unicode toLowerCase, characters
outside [a-z0-9-] replaced by hyphens, hyphen runs collapsed, ends
trimmed. -/
def jsSlugOf (filename : String) : String :=
  ⟨trimHyphens (collapseHyphens
    (((stripExtJsChars filename.data).flatMap jsLowerChar).map
      (fun c => if slugKeep c then c else '-')))⟩

/-- admin.js slugify: Unicode toLowerCase, replace every run outside
[a-z0-9] by one hyphen (modelled as a character map followed by the
collapse the function also applies explicitly), trim. -/
def adminSlugify (s : String) : String :=
  ⟨trimHyphens (collapseHyphens ((s.data.flatMap jsLowerChar).map
    (fun c => if (c.isLower || c.isDigit) then c else '-')))⟩

/-! ## Decimal rendering of naturals (bash arithmetic expansion of counters,
JavaScript number-to-string coercion) -/

def digitChar (d : Nat) : Char := Char.ofNat (48 + d)

/-- Little-endian decimal digits, structured with fuel so that it reduces
inside the kernel; the fuel never runs out because a number needs fewer
digits than its value plus one. -/
def natDigitsRevAux : Nat → Nat → List Char
  | 0, _ => []
  | fuel + 1, n =>
    if n < 10 then [digitChar n]
    else digitChar (n % 10) :: natDigitsRevAux fuel (n / 10)

/-- Little-endian decimal digits of a natural number. -/
def natDigitsRev (n : Nat) : List Char := natDigitsRevAux (n + 1) n

/-- Decimal rendering of a natural number. -/
def natToString (n : Nat) : String := ⟨(natDigitsRev n).reverse⟩

/-- Value of a little-endian digit list, for the round-trip proof. -/
def digitsRevVal : List Char → Nat
  | [] => 0
  | c :: cs => (c.toNat - 48) + 10 * digitsRevVal cs

/-! ## Data model: the data photos.json manifest -/

/-- The profile object of photos.json.  The processing scripts only ever
read it (profile.siteUrl for the sitemap); the browser reads the other
fields. -/
structure Profile where
  username : String
  fullName : String
  bio : String
  bioLink : String
  profilePhoto : String
  siteUrl : String
deriving Repr, DecidableEq

/-- One media item of the media array written by the Instagram import
(type image or video; poster and duration only for videos). -/
structure MediaEntry where
  mtype : String
  web : String
  thumbnail : String
  poster : Option String
  duration : Option String
deriving Repr, DecidableEq

/-- One entry of the photos array.  process-photos.sh writes every field
except media; the Instagram import also writes media (and its migration
step adds media to entries that lack it, modelled by media = none). -/
structure Photo where
  filename : String
  web : String
  thumbnail : String
  slug : String
  date : String
  caption : String
  camera : String
  lens : String
  settings : String
  location : String
  gpsLat : String
  gpsLon : String
  width : Option Nat
  height : Option Nat
  media : Option (List MediaEntry)
deriving Repr, DecidableEq

/-- The manifest data photos.json: a profile object and a photos array
(albums, written only by the admin page, are modelled separately with it). -/
structure Manifest where
  profile : Profile
  photos : List Photo
deriving Repr, DecidableEq

/-! ## Embedding of scripts process-photos.sh -/

/-- Metadata the script obtains from the outside world for one file:
the exiftool field cascade (with the file-modification-date fallback
already applied for date), the derived camera and settings strings, and
the reverse-geocoded location.  An empty string models an absent value,
as in the script. -/
structure ExifMeta where
  date : String
  camera : String
  lens : String
  settings : String
  location : String
  gpsLat : String
  gpsLon : String
  width : Option Nat
  height : Option Nat
deriving Repr, DecidableEq

/-- Oracle for one run of process-photos.sh: per-filename metadata, and
whether the ImageMagick conversions for that file succeed.  Under
set -e a failing conversion terminates the script, so one Bool per file
suffices. -/
structure Env where
  meta : String → ExifMeta
  convert : String → Bool

/-- Mutable state of the ingestion loop: current directory contents, the
photos array of the JSON file (entries are written per iteration), and
the two counters. -/
structure RunState where
  dir : List String
  photos : List Photo
  newCount : Nat
  skipped : Nat
deriving Repr, DecidableEq

/-- Result of the per-file loop: ok, or the script was killed by set -e
(a failed ImageMagick conversion); the carried state is the on-disk state
at that moment. -/
inductive RunOutcome where
  | ok : RunState → RunOutcome
  | aborted : RunState → RunOutcome
deriving Repr, DecidableEq

/-- The list of supported image extensions of both scripts. -/
def supportedImageExts : List String :=
  ["jpg", "jpeg", "png", "tiff", "tif", "heic", "heif", "webp", "avif", "bmp"]

/-- The video extensions of the Instagram import. -/
def videoExts : List String := ["mp4", "mov", "avi", "mkv", "webm", "m4v"]

def lowerString (s : String) : String := ⟨s.data.map Char.toLower⟩

def isSupportedImage (ext : String) : Bool := supportedImageExts.contains ext

def isVideoExt (ext : String) : Bool := videoExts.contains ext

/-- Hidden files (dotfiles) are skipped by the ingestion loop. -/
def isHidden (f : String) : Bool :=
  match f.data with
  | '.' :: _ => true
  | _ => false

/-- A collision-avoidance candidate name, base-counter.ext. -/
def collCand (base ext : String) (c : Nat) : String :=
  base ++ "-" ++ natToString c ++ "." ++ ext

/-- The collision-avoidance while loop of process-photos.sh lines 115-119:
increment the counter until base-counter.ext does not exist.  The loop is
unbounded in bash; with fuel one more than the number of files a free
candidate is always reached, so the fuel-exhausted fallback is dead code. -/
def freeNameLoop (dir : List String) (base ext : String) : Nat → Nat → String
  | 0, c => collCand base ext c
  | fuel + 1, c =>
    if collCand base ext c ∈ dir then freeNameLoop dir base ext fuel (c + 1)
    else collCand base ext c

def freeName (dir : List String) (base ext : String) : String :=
  freeNameLoop dir base ext (dir.length + 1) 1

/-- The JSON entry process-photos.sh builds for a new photo
(lines 252-281). -/
def mkEntry (env : Env) (caption : String) (filename : String) : Photo :=
  let m := env.meta filename
  { filename := filename
    web := stripExtShell filename ++ ".webp"
    thumbnail := "thumb_" ++ stripExtShell filename ++ ".webp"
    slug := shellSlugOf filename
    date := m.date
    caption := caption
    camera := m.camera
    lens := m.lens
    settings := m.settings
    location := m.location
    gpsLat := m.gpsLat
    gpsLon := m.gpsLon
    width := m.width
    height := m.height
    media := none }

/-- One iteration of the ingestion loop of process-photos.sh
(lines 100-290) for glob entry filepath.  known is the known_files list
computed once before the loop from the initial manifest.  Returns an
error when set -e kills the script (failed conversion). -/
def processFile (env : Env) (known : List String) (caption : String)
    (st : RunState) (filepath : String) : Except RunState RunState :=
  if filepath ∉ st.dir then .ok st
  else if isHidden filepath then .ok st
  else
    let sanitized := sanitize filepath
    let step :=
      if sanitized ≠ filepath then
        let target :=
          if sanitized ∈ st.dir then
            freeName st.dir (stripExtShell sanitized) (extOf sanitized)
          else sanitized
        (target :: st.dir.erase filepath, target)
      else (st.dir, filepath)
    let dir1 := step.1
    let filename := step.2
    let st1 : RunState := { st with dir := dir1 }
    if ¬ isSupportedImage (lowerString (extOf filename)) then
      .ok { st1 with skipped := st1.skipped + 1 }
    else if filename ∈ known then .ok st1
    else if env.convert filename then
      .ok { st1 with photos := mkEntry env caption filename :: st1.photos,
                     newCount := st1.newCount + 1 }
    else .error st1

/-- The whole per-file loop over the glob list. -/
def runFiles (env : Env) (known : List String) (caption : String) :
    RunState → List String → RunOutcome
  | st, [] => .ok st
  | st, f :: fs =>
    match processFile env known caption st f with
    | .ok st1 => runFiles env known caption st1 fs
    | .error st1 => .aborted st1

/-- Lexicographic comparison of strings by code point, the order jq uses
to sort strings (modelled on the character lists so that it evaluates
inside the kernel). -/
def chLe : List Char → List Char → Bool
  | [], _ => true
  | _ :: _, [] => false
  | a :: as, b :: bs => if a = b then chLe as bs else decide (a < b)

/-- Stable insertion of a photo into a date-sorted list: the new element
goes in front of the first element it compares less-or-equal to. -/
def insertByDate (p : Photo) : List Photo → List Photo
  | [] => [p]
  | q :: qs => if chLe p.date.data q.date.data then p :: q :: qs else q :: insertByDate p qs

/-- jq sort_by date on the photos array, modelled as a stable sort by the
date string (insertion sort, which keeps the original order of entries
with equal dates, as jq sort_by does). -/
def sortByDate : List Photo → List Photo
  | [] => []
  | p :: ps => insertByDate p (sortByDate ps)

/-- The observable result of one run of process-photos.sh: the JSON file,
the directory contents, the counters, whether set -e killed the run, and
the slugs written to sitemap.xml (none when the sitemap step did not
run). -/
structure RunResult where
  manifest : Manifest
  dir : List String
  newCount : Nat
  skipped : Nat
  wasAborted : Bool
  sitemap : Option (List String)
deriving Repr, DecidableEq

/-- One full run of process-photos.sh over a directory listing glob with
initial manifest m: collect known_files, loop over the files, then, only
when new photos were added, re-sort the array newest-first and regenerate
sitemap.xml (lines 292-316). -/
def processPhotosRun (env : Env) (caption : String) (glob : List String)
    (m : Manifest) : RunResult :=
  let known := m.photos.map (·.filename)
  match runFiles env known caption ⟨glob, m.photos, 0, 0⟩ glob with
  | .aborted st =>
    { manifest := { m with photos := st.photos }, dir := st.dir,
      newCount := st.newCount, skipped := st.skipped,
      wasAborted := true, sitemap := none }
  | .ok st =>
    let photos := if st.newCount > 0 then (sortByDate st.photos).reverse else st.photos
    let m2 : Manifest := { m with photos := photos }
    { manifest := m2, dir := st.dir,
      newCount := st.newCount, skipped := st.skipped,
      wasAborted := false,
      sitemap :=
        if st.newCount > 0 ∧ m2.profile.siteUrl ≠ "" then
          some (m2.photos.map (·.slug))
        else none }

/-- A run specification, for statements about sequences of runs. -/
structure RunSpec where
  env : Env
  caption : String
  glob : List String

/-- The manifest after a sequence of process-photos.sh runs. -/
def runSeq (rs : List RunSpec) (m : Manifest) : Manifest :=
  match rs with
  | [] => m
  | r :: rest => runSeq rest (processPhotosRun r.env r.caption r.glob m).manifest

/-! ## Embedding of scripts import-instagram.sh (appended source, shipped in
src js timeline.js lines 145-620) -/

/-- basename: the part of a path after the last slash. -/
def basename (s : String) : String := ⟨(s.data.reverse.takeWhile (fun c => c ≠ '/')).reverse⟩

/-- The slug pipeline of the import (same tr and sed chain, but applied to
the raw base slug, with no extension stripping). -/
def slugStr (s : String) : String := ⟨slugCore s.data⟩

/-- One media object of an Instagram export post. -/
structure MediaItem where
  uri : String
  title : String
  creationTs : Option Nat
deriving Repr, DecidableEq

/-- One post of posts_1.json. -/
structure IgPost where
  title : String
  creationTs : Option Nat
  media : List MediaItem
deriving Repr, DecidableEq

/-- Oracle for one run of import-instagram.sh: the date command, the files
in the export folder, and the success of the ffmpeg and ImageMagick
invocations (the script runs without set -e and guards each one). -/
structure ImportEnv where
  fmtDate : Nat → String
  fileExists : String → Bool
  hasFfmpeg : Bool
  encodeOk : String → Bool
  posterOk : String → Bool
  posterFallbackOk : String → Bool
  videoThumbOk : String → Bool
  duration : String → String
  imageOk : String → Bool
  meta : String → ExifMeta

/-- Empty exif metadata (every field absent). -/
def metaNone : ExifMeta := ⟨"", "", "", "", "", "", "", none, none⟩

/-- One media item of a post (import loop lines 326-524): returns the
media-array entry, or none when the item is skipped with a warning, plus
whether the any_error flag is raised (only for a missing file). -/
def mediaStep (env : ImportEnv) (outBase : String) (item : MediaItem) :
    Option MediaEntry × Bool :=
  if item.uri = "" then (none, false)
  else if ¬ env.fileExists item.uri then (none, true)
  else
    let extL := lowerString (extOf (basename item.uri))
    if isVideoExt extL then
      if ¬ env.hasFfmpeg then (none, false)
      else if ¬ env.encodeOk item.uri then (none, false)
      else if ¬ (env.posterOk item.uri || env.posterFallbackOk item.uri) then (none, false)
      else if ¬ env.videoThumbOk item.uri then (none, false)
      else (some { mtype := "video", web := outBase ++ ".mp4",
                   thumbnail := "thumb_" ++ outBase ++ ".webp",
                   poster := some (outBase ++ "-poster.webp"),
                   duration := some (env.duration item.uri) }, false)
    else if ¬ isSupportedImage extL then (none, false)
    else if ¬ env.imageOk item.uri then (none, false)
    else (some { mtype := "image", web := outBase ++ ".webp",
                 thumbnail := "thumb_" ++ outBase ++ ".webp",
                 poster := none, duration := none }, false)

/-- The media loop of one post, indexed so that multi-item posts number
their output files slug-1, slug-2, and so on. -/
def mediaFold (env : ImportEnv) (slug : String) (mediaCount : Nat) :
    Nat → List MediaItem → List MediaEntry × Bool
  | _, [] => ([], false)
  | mi, item :: rest =>
    let outBase := if mediaCount > 1 then slug ++ "-" ++ natToString (mi + 1) else slug
    let r := mediaStep env outBase item
    let rec' := mediaFold env slug mediaCount (mi + 1) rest
    (match r.1 with
     | some e => e :: rec'.1
     | none => rec'.1,
     r.2 || rec'.2)

/-- Post-level exif metadata: extracted only when the first media item
(index 0) is a present, supported, successfully converted image. -/
def igPostMeta (env : ImportEnv) (post : IgPost) : ExifMeta :=
  match post.media with
  | [] => metaNone
  | item :: _ =>
    if item.uri ≠ "" ∧ env.fileExists item.uri ∧
        ¬ isVideoExt (lowerString (extOf (basename item.uri))) = true ∧
        isSupportedImage (lowerString (extOf (basename item.uri))) ∧
        env.imageOk item.uri
    then env.meta item.uri
    else metaNone

/-- The post-date cascade of the import (lines 277-290): the post
timestamp when present and nonzero, else the first media item timestamp;
the returned option is the creation_ts variable used for the slug, which
the media fallback overwrites. -/
def igPostDate (env : ImportEnv) (post : IgPost) : String × Option Nat :=
  let ts0 := post.creationTs
  let d0 := match ts0 with
    | some t => if t ≠ 0 then env.fmtDate t else ""
    | none => ""
  if d0 = "" then
    match post.media.head? with
    | some it =>
      match it.creationTs with
      | some mt => if mt ≠ 0 then (env.fmtDate mt, some mt) else (d0, ts0)
      | none => (d0, ts0)
    | none => (d0, ts0)
  else (d0, ts0)

/-- The caption cascade: post title, else first media item title. -/
def igCaption (post : IgPost) : String :=
  if post.title ≠ "" then post.title
  else ((post.media.head?).map (·.title)).getD ""

/-- The slug of a post: ig-timestamp, or ig-post-index without one. -/
def igSlug (env : ImportEnv) (idx : Nat) (post : IgPost) : String :=
  let ts := (igPostDate env post).2
  match ts with
  | some t => slugStr ("ig-" ++ natToString t)
  | none => slugStr ("ig-post-" ++ natToString idx)

/-- Mutable state of the import loop. -/
structure ImportState where
  photos : List Photo
  newCount : Nat
  skipped : Nat
  errors : Nat
deriving Repr, DecidableEq

/-- One post of the import loop (lines 265-582).  knownSlugs is computed
once before the loop. -/
def importPost (env : ImportEnv) (knownSlugs : List String) (idx : Nat)
    (st : ImportState) (post : IgPost) : ImportState :=
  let slug := igSlug env idx post
  if slug ∈ knownSlugs then { st with skipped := st.skipped + 1 }
  else
    let mr := mediaFold env slug post.media.length 0 post.media
    if mr.1.length = 0 then { st with errors := st.errors + 1 }
    else
      let meta := igPostMeta env post
      let firstWeb :=
        match mr.1.head? with
        | some e => if e.mtype = "video" then e.poster.getD "" else e.web
        | none => ""
      let firstThumb := ((mr.1.head?).map (·.thumbnail)).getD ""
      let igFilename := basename (((post.media.head?).map (·.uri)).getD "")
      let entry : Photo :=
        { filename := igFilename
          web := firstWeb
          thumbnail := firstThumb
          slug := slug
          date := (igPostDate env post).1
          caption := igCaption post
          camera := meta.camera
          lens := meta.lens
          settings := meta.settings
          location := meta.location
          gpsLat := meta.gpsLat
          gpsLon := meta.gpsLon
          width := meta.width
          height := meta.height
          media := some mr.1 }
      { st with photos := st.photos ++ [entry],
                newCount := st.newCount + 1,
                errors := st.errors + (if mr.2 then 1 else 0) }

def importPosts (env : ImportEnv) (knownSlugs : List String) :
    Nat → ImportState → List IgPost → ImportState
  | _, st, [] => st
  | idx, st, p :: ps => importPosts env knownSlugs (idx + 1) (importPost env knownSlugs idx st p) ps

/-- The migration step (lines 239-249): entries without a media field get
a one-image media array built from their web and thumbnail fields. -/
def migrateEntry (p : Photo) : Photo :=
  match p.media with
  | none => { p with media := some [{ mtype := "image", web := p.web,
                                      thumbnail := p.thumbnail,
                                      poster := none, duration := none }] }
  | some _ => p

/-- One full run of import-instagram.sh over an export with the given
posts list: migrate, collect known slugs, loop, then sort newest-first
when anything was imported. -/
def importRun (env : ImportEnv) (posts : List IgPost) (m : Manifest) :
    Manifest × ImportState :=
  let photos0 := m.photos.map migrateEntry
  let knownSlugs := photos0.map (·.slug)
  let st := importPosts env knownSlugs 0 ⟨photos0, 0, 0, 0⟩ posts
  let photos := if st.newCount > 0 then (sortByDate st.photos).reverse else st.photos
  ({ m with photos := photos }, st)

/-! ## Embedding of js lightbox.js (LightboxModule) -/

/-- The fields of a photo object the lightbox reads: slug (empty string
for a missing field), filename, web, caption, and the palBaseUrl tag the
palgram merge attaches (empty for local photos). -/
structure LbPhoto where
  slug : String
  filename : String
  web : String
  caption : String
  palBaseUrl : String
deriving Repr, DecidableEq

def arbLbPhoto : LbPhoto := ⟨"", "", "", "", ""⟩

/-- lightbox.js slugFor: the slug field when truthy, else the runtime
fallback derivation from the filename. -/
def slugForJs (p : LbPhoto) : String :=
  if p.slug ≠ "" then p.slug else jsSlugOf p.filename

/-- Array.prototype.findIndex: index of the first match, minus one when
there is none. -/
def findIndexFrom (pred : LbPhoto → Bool) : Nat → List LbPhoto → Int
  | _, [] => -1
  | i, p :: ps => if pred p then (i : Int) else findIndexFrom pred (i + 1) ps

/-- lightbox.js indexBySlug. -/
def indexBySlug (photos : List LbPhoto) (slug : String) : Int :=
  findIndexFrom (fun p => decide (slugForJs p = slug)) 0 photos

/-- The module state the claims are about: the photo list, the current
index, and the address-bar hash (none models a cleared hash). -/
structure LbState where
  photos : List LbPhoto
  currentIndex : Int
  hash : Option String
deriving Repr, DecidableEq

/-- lightbox.js show(index): returns immediately when the index is out of
range; otherwise records the index and, for a local photo, sets the hash
to the photo slug (setHash), clearing it for a pal photo (clearHash). -/
def lbShow (i : Int) (s : LbState) : LbState :=
  if i < 0 ∨ (s.photos.length : Int) ≤ i then s
  else
    let p := s.photos.getD i.toNat arbLbPhoto
    { s with currentIndex := i,
             hash := if p.palBaseUrl = "" then some ("#photo=" ++ slugForJs p) else none }

/-- lightbox.js preload(index): the image URL it requests, none when the
index is out of range (the stated no-op). -/
def lbPreload (i : Int) (photos : List LbPhoto) : Option String :=
  if i < 0 ∨ (photos.length : Int) ≤ i then none
  else
    let p := photos.getD i.toNat arbLbPhoto
    some (if p.palBaseUrl = "" then "photos/web/" ++ p.web
          else p.palBaseUrl ++ "photos/web/" ++ p.web)

/-- The slug a location hash deep-links to: checkHash requires the
hash to start with the photo prefix and strips it. -/
def hashSlug (hash : String) : Option String :=
  if hash.data.take 7 = ("#photo=" : String).data then some ⟨hash.data.drop 7⟩ else none

/-- lightbox.js checkHash: the index the lightbox opens at on page load,
none when it does not open. -/
def checkHashIndex (hash : String) (photos : List LbPhoto) : Option Int :=
  match hashSlug hash with
  | some sl =>
    let idx := indexBySlug photos sl
    if idx ≠ -1 then some idx else none
  | none => none

/-! ## Embedding of js admin.js album creation -/

structure Album where
  id : String
  title : String
  description : String
  cover : String
  photos : List String
deriving Repr, DecidableEq

/-- First element of a candidate list not among ids (the fallback is dead
code reached only if every candidate collides). -/
def firstNotMem (ids : List String) (fb : String) : List String → String
  | [] => fb
  | c :: cs => if c ∈ ids then firstNotMem ids fb cs else c

/-- The candidate ids the saveAlbum while loop tries, in order: the base
id, then id-2, id-3, and so on.  One more candidate than there are albums
always suffices. -/
def albumCandidates (id : String) (n : Nat) : List String :=
  id :: (List.range (n + 1)).map (fun k => id ++ "-" ++ natToString (k + 2))

/-- admin.js saveAlbum unique-id loop: starting from the slugified title,
append an increasing numeric suffix while the candidate collides with an
existing album id. -/
def freshAlbumId (ids : List String) (id : String) : String :=
  firstNotMem ids (id ++ "-" ++ natToString (ids.length + 3)) (albumCandidates id ids.length)

/-- admin.js saveAlbum, create branch (lines 332-348): slugify the title,
fall back to a timestamp id, make the id unique, and push the new album. -/
def saveAlbumNew (albums : List Album) (title description coverSel : String)
    (selected : List String) (now : Nat) : List Album :=
  let slug := adminSlugify title
  let id := if slug = "" then "album-" ++ natToString now else slug
  let uniqueId := freshAlbumId (albums.map (·.id)) id
  let cover := if coverSel ≠ "" then coverSel else selected.headD ""
  albums ++ [{ id := uniqueId, title := title, description := description,
               cover := cover, photos := selected }]

/-! ## Concrete inputs used by the witnesses and counterexamples -/

def emptyProfile : Profile := ⟨"", "", "", "", "", ""⟩

def emptyManifest : Manifest := ⟨emptyProfile, []⟩

/-- Exif metadata carrying only a date. -/
def metaD (d : String) : ExifMeta := { metaNone with date := d }

/-- Environment with no exif data and every conversion succeeding. -/
def envTrue : Env := ⟨fun _ => metaNone, fun _ => true⟩

/-- Environment giving the two colliding-slug files distinct dates. -/
def envDates : Env :=
  ⟨fun f => if f = "A.jpg" then metaD "2024-01-02T00:00:00"
            else metaD "2024-01-01T00:00:00",
   fun _ => true⟩

/-- Environment in which the ImageMagick conversion of bad.jpg fails. -/
def envBad : Env := ⟨fun _ => metaNone, fun f => decide (f ≠ "bad.jpg")⟩

/-- Import environment: every file present, every conversion succeeding,
no ffmpeg, fixed date formatting. -/
def ienvTrue : ImportEnv :=
  ⟨fun _ => "2020-01-01T00:00:00", fun _ => true, false,
   fun _ => true, fun _ => true, fun _ => true, fun _ => true,
   fun _ => "", fun _ => true, fun _ => metaNone⟩

/-- Import environment with ffmpeg in which the first poster-frame
attempt fails and the fallback succeeds. -/
def ienvPosterRetry : ImportEnv :=
  ⟨fun _ => "2020-01-01T00:00:00", fun _ => true, true,
   fun _ => true, fun _ => false, fun _ => true, fun _ => true,
   fun _ => "0:10", fun _ => true, fun _ => metaNone⟩

/-- Import environment in which no file of the export exists. -/
def ienvMissing : ImportEnv :=
  ⟨fun _ => "2020-01-01T00:00:00", fun _ => false, false,
   fun _ => true, fun _ => true, fun _ => true, fun _ => true,
   fun _ => "", fun _ => true, fun _ => metaNone⟩

/-- Two photos without slug fields whose filenames collapse to the same
slug. -/
def lbPair : List LbPhoto :=
  [⟨"", "a.jpg", "a.webp", "", ""⟩, ⟨"", "a.png", "b.webp", "", ""⟩]

/-- A lightbox state over lbPair. -/
def lbPairState : LbState := ⟨lbPair, 0, none⟩

/-- Whether, after scanning the list with the given previous-was-hyphen
flag, the flag ends up set: used to reason about run-collapsing across an
append. -/
def hyphenEnd : Bool → List Char → Bool
  | b, [] => b
  | _, c :: cs => hyphenEnd (decide (c = '-')) cs

/-- The name a colliding file is renamed to, lines 110-125. -/
def renameTarget (dir : List String) (f : String) : String :=
  if sanitize f ∈ dir then
    freeName dir (stripExtShell (sanitize f)) (extOf (sanitize f))
  else sanitize f

/-! ## Theorems.  Lemmas about the character pipelines -/

theorem collapseAux_append (z : List Char) :
    ∀ (y : List Char) (b : Bool),
      collapseAux b (y ++ z) = collapseAux b y ++ collapseAux (hyphenEnd b y) z := by
  intro y
  induction y with
  | nil => intro b; rfl
  | cons c cs ih =>
    intro b
    by_cases hc : c = '-'
    · subst hc
      cases b with
      | true => simpa [collapseAux, hyphenEnd] using ih true
      | false => simpa [collapseAux, hyphenEnd] using ih true
    · simp [collapseAux, hyphenEnd, hc, ih false]

theorem collapseAux_true_nil_iff (cs : List Char) :
    collapseAux true cs = [] ↔ cs.all (fun c => c = '-') := by
  induction cs with
  | nil => simp [collapseAux]
  | cons c cs ih =>
    by_cases hc : c = '-'
    · simp [collapseAux, hc, ih]
    · simp [collapseAux, hc]

theorem hyphenEnd_true_of_all (cs : List Char)
    (h : cs.all (fun c => c = '-')) : hyphenEnd true cs = true := by
  induction cs with
  | nil => rfl
  | cons e es ihe =>
    simp only [List.all_cons, Bool.and_eq_true, decide_eq_true_eq] at h
    simp [hyphenEnd, h.1, ihe h.2]

theorem collapseAux_getLast_ne_hyphen :
    ∀ (y : List Char) (b : Bool), hyphenEnd b y = false →
      (collapseAux b y).getLast? ≠ some '-' := by
  intro y
  induction y with
  | nil => intro b _; simp [collapseAux]
  | cons c cs ih =>
    intro b hb
    by_cases hc : c = '-'
    · subst hc
      have hb' : hyphenEnd true cs = false := by simpa [hyphenEnd] using hb
      cases b with
      | true => simpa [collapseAux] using ih true hb'
      | false =>
        simp only [collapseAux, if_pos rfl]
        rcases hu : collapseAux true cs with _ | ⟨d, ds⟩
        · exact absurd (hyphenEnd_true_of_all cs ((collapseAux_true_nil_iff cs).mp hu))
            (by simp [hb'])
        · have := ih true hb'
          rw [hu] at this
          simpa using this
    · have hb' : hyphenEnd false cs = false := by simpa [hyphenEnd, hc] using hb
      simp only [collapseAux, if_neg hc]
      rcases hu : collapseAux false cs with _ | ⟨d, ds⟩
      · simpa using hc
      · have := ih false hb'
        rw [hu] at this
        simpa using this

theorem dropLeadHyphen_append_of_ne_nil (w z : List Char) (hw : w ≠ []) :
    dropLeadHyphen (w ++ z) = dropLeadHyphen w ++ z := by
  cases w with
  | nil => exact absurd rfl hw
  | cons c cs =>
    by_cases hc : c = '-' <;> simp [dropLeadHyphen, hc]

theorem dropTrailHyphen_append_hyphen (u : List Char) :
    dropTrailHyphen (u ++ ['-']) = u := by
  simp [dropTrailHyphen, dropLeadHyphen]

theorem dropLeadHyphen_getLast_ne (l : List Char) (h : l.getLast? ≠ some '-') :
    (dropLeadHyphen l).getLast? ≠ some '-' := by
  cases l with
  | nil => simp [dropLeadHyphen]
  | cons c cs =>
    by_cases hc : c = '-'
    · subst hc
      cases cs with
      | nil => simp [dropLeadHyphen]
      | cons d ds =>
        simp only [dropLeadHyphen, if_pos rfl]
        simpa [List.getLast?_cons_cons] using h
    · simpa [dropLeadHyphen, hc] using h

theorem dropTrailHyphen_of_getLast_ne (l : List Char) (h : l.getLast? ≠ some '-') :
    dropTrailHyphen l = l := by
  unfold dropTrailHyphen
  rcases hr : l.reverse with _ | ⟨c, r⟩
  · have hl : l = [] := by simpa using congrArg List.reverse hr
    subst hl
    simp [dropLeadHyphen]
  · have hc : c ≠ '-' := by
      intro hceq
      apply h
      have : l.getLast? = (l.reverse).head? := by simp
      rw [this, hr, hceq]
      rfl
    rw [dropLeadHyphen, if_neg hc, ← hr]
    simp

theorem trim_collapse_append_hyphen (y : List Char) :
    trimHyphens (collapseHyphens (y ++ ['-'])) = trimHyphens (collapseHyphens y) := by
  have happ := collapseAux_append ['-'] y false
  rcases hhe : hyphenEnd false y with _ | _
  · -- the collapsed list does not end in a hyphen; the appended hyphen survives
    -- the collapse and is removed by the trailing trim
    have h1 : collapseHyphens (y ++ ['-']) = collapseHyphens y ++ ['-'] := by
      rw [collapseHyphens, happ, hhe]; rfl
    rcases hw : collapseHyphens y with _ | ⟨c, cs⟩
    · rw [trimHyphens, h1, hw]
      simp [dropLeadHyphen, dropTrailHyphen, trimHyphens]
    · rw [trimHyphens, h1, hw, dropLeadHyphen_append_of_ne_nil _ _ (by simp),
        dropTrailHyphen_append_hyphen, trimHyphens]
      have hlast : (collapseHyphens y).getLast? ≠ some '-' :=
        collapseAux_getLast_ne_hyphen y false hhe
      rw [hw] at hlast
      rw [dropTrailHyphen_of_getLast_ne _ (dropLeadHyphen_getLast_ne _ hlast)]
  · -- the collapsed list already ends in a hyphen, so the appended hyphen
    -- is swallowed by the collapse
    have h1 : collapseHyphens (y ++ ['-']) = collapseHyphens y := by
      rw [collapseHyphens, happ, hhe]
      simp [collapseAux, collapseHyphens]
    rw [h1]

theorem slugMapChar_dot : slugMapChar '.' = '-' := by decide

theorem slugCore_append_dot (x : List Char) :
    slugCore (x ++ ['.']) = slugCore x := by
  unfold slugCore
  rw [List.map_append]
  simp only [List.map_cons, List.map_nil, slugMapChar_dot]
  exact trim_collapse_append_hyphen (x.map slugMapChar)

theorem stripExt_agree_or_dot (l : List Char) :
    stripExtJsChars l = stripExtShellChars l ∨
      (stripExtJsChars l = l ∧ l = stripExtShellChars l ++ ['.']) := by
  rcases hr : l.reverse with _ | ⟨c, r⟩
  · left
    have hl : l = [] := by simpa using congrArg List.reverse hr
    subst hl
    rfl
  · by_cases hc : c = '.'
    · right
      subst hc
      constructor
      · unfold stripExtJsChars
        rw [hr]
        simp [List.takeWhile]
      · unfold stripExtShellChars
        rw [hr]
        have hl : l = r.reverse ++ ['.'] := by
          have := congrArg List.reverse hr
          simpa using this
        simp [List.dropWhile, hl]
    · left
      unfold stripExtJsChars stripExtShellChars
      rw [hr]
      simp [List.takeWhile, hc]

theorem stripExtShellChars_subset (l : List Char) (c : Char)
    (hc : c ∈ stripExtShellChars l) : c ∈ l := by
  unfold stripExtShellChars at hc
  rcases hd : l.reverse.dropWhile (fun ch => decide (ch ≠ '.')) with _ | ⟨d, rest⟩ <;>
    rw [hd] at hc
  · exact hc
  · have hc1 : c ∈ rest.reverse := hc
    have h1 : rest.Sublist l.reverse := by
      have h2 := List.dropWhile_sublist (l := l.reverse) (fun ch => decide (ch ≠ '.'))
      rw [hd] at h2
      exact (List.sublist_cons_self d rest).trans h2
    rw [List.mem_reverse] at hc1
    have h3 := h1.subset hc1
    rwa [List.mem_reverse] at h3

theorem stripExtJsChars_subset (l : List Char) (c : Char)
    (hc : c ∈ stripExtJsChars l) : c ∈ l := by
  rcases stripExt_agree_or_dot l with h | ⟨h1, _⟩
  · rw [h] at hc
    exact stripExtShellChars_subset l c hc
  · rwa [h1] at hc

theorem jsLower_flatMap_eq_map (l : List Char)
    (h : ∀ c ∈ l, c ≠ Char.ofNat 0x130 ∧ c ≠ Char.ofNat 0x212A) :
    l.flatMap jsLowerChar = l.map Char.toLower := by
  induction l with
  | nil => rfl
  | cons c cs ih =>
    have hc := h c (List.mem_cons_self c cs)
    rw [List.flatMap_cons, List.map_cons,
      ih (fun d hd => h d (List.mem_cons_of_mem _ hd))]
    simp only [jsLowerChar, if_neg hc.1, if_neg hc.2]
    rfl

/-- C8 (amended): the browser-side fallback slug derivation (lightbox.js
and timeline.js slugFor, on a photo without a slug field) agrees with the
slug the shell pipeline in process-photos.sh stores, for every filename
that contains neither U+0130 nor U+212A — the only two characters whose
JavaScript lowercasing lands inside the slug alphabet from outside ASCII
— and in particular for every ASCII filename.  On the common domain the
two differ only in extension stripping: the shell also strips a trailing
bare dot, which the slug tail would have turned into a trimmed trailing
hyphen anyway. -/
theorem slug_pipelines_agree (f : String)
    (h : ∀ c ∈ f.data, c ≠ Char.ofNat 0x130 ∧ c ≠ Char.ofNat 0x212A) :
    jsSlugOf f = shellSlugOf f ∧
      slugForJs { slug := "", filename := f, web := "", caption := "", palBaseUrl := "" } =
        shellSlugOf f := by
  have hflat : (stripExtJsChars f.data).flatMap jsLowerChar =
      (stripExtJsChars f.data).map Char.toLower :=
    jsLower_flatMap_eq_map _ (fun c hc => h c (stripExtJsChars_subset f.data c hc))
  have hmain : jsSlugOf f = shellSlugOf f := by
    unfold jsSlugOf shellSlugOf
    rw [hflat, List.map_map]
    have hfun : ((fun c => if slugKeep c then c else '-') ∘ Char.toLower) = slugMapChar := by
      funext c
      rfl
    rw [hfun]
    show (⟨slugCore (stripExtJsChars f.data)⟩ : String) =
      ⟨slugCore (stripExtShellChars f.data)⟩
    rcases stripExt_agree_or_dot f.data with hagree | ⟨h1, h2⟩
    · rw [hagree]
    · have hcore : slugCore (stripExtJsChars f.data) =
          slugCore (stripExtShellChars f.data) := by
        conv_lhs => rw [h1, h2]
        rw [slugCore_append_dot]
      exact congrArg String.mk hcore
  exact ⟨hmain, by simpa [slugForJs] using hmain⟩

/-- C8 witness: the two pipelines agree at a concrete ASCII filename with
spaces, parentheses and uppercase. -/
theorem slug_pipelines_agree_witness :
    jsSlugOf "My Photo (1).JPG" = shellSlugOf "My Photo (1).JPG" ∧
    jsSlugOf "My Photo (1).JPG" = "my-photo-1" :=
  ⟨(slug_pipelines_agree "My Photo (1).JPG" (by decide)).1, by decide⟩

/-- C8 counterexample: JavaScript toLowerCase maps U+0130 to i followed
by a combining dot, so the browser slug of İstanbul.jpg is i-stanbul,
while tr in the shell leaves the byte pair of U+0130 untouched and the
sed classes turn it into a leading hyphen that is trimmed, giving
stanbul: the two slug definitions disagree on this filename. -/
theorem slug_pipelines_counterexample :
    jsSlugOf "İstanbul.jpg" = "i-stanbul" ∧
    shellSlugOf "İstanbul.jpg" = "stanbul" ∧
    jsSlugOf "İstanbul.jpg" ≠ shellSlugOf "İstanbul.jpg" := by decide

/-! ## Decimal rendering: round trip and injectivity -/

theorem digitChar_toNat (d : Nat) (h : d < 10) : (digitChar d).toNat = 48 + d := by
  interval_cases d <;> decide

theorem digitsRevVal_natDigitsRevAux :
    ∀ (fuel n : Nat), n < fuel → digitsRevVal (natDigitsRevAux fuel n) = n := by
  intro fuel
  induction fuel with
  | zero => intro n h; omega
  | succ fuel ih =>
    intro n h
    unfold natDigitsRevAux
    by_cases h10 : n < 10
    · simp only [h10, if_pos, digitsRevVal]
      rw [digitChar_toNat n h10]
      omega
    · have hdiv : n / 10 < n := Nat.div_lt_self (by omega) (by omega)
      simp only [h10, if_neg, not_false_iff, digitsRevVal]
      rw [digitChar_toNat (n % 10) (Nat.mod_lt n (by omega)), ih (n / 10) (by omega)]
      omega

theorem digitsRevVal_natDigitsRev (n : Nat) :
    digitsRevVal (natDigitsRev n) = n :=
  digitsRevVal_natDigitsRevAux (n + 1) n (by omega)

theorem natToString_injective : Function.Injective natToString := by
  intro a b h
  have h1 : (natDigitsRev a).reverse = (natDigitsRev b).reverse := congrArg String.data h
  have h2 : natDigitsRev a = natDigitsRev b := by
    simpa using congrArg List.reverse h1
  have h3 := congrArg digitsRevVal h2
  rwa [digitsRevVal_natDigitsRev, digitsRevVal_natDigitsRev] at h3

theorem natDigitsRev_ne_nil (n : Nat) : natDigitsRev n ≠ [] := by
  rw [natDigitsRev]
  unfold natDigitsRevAux
  by_cases h : n < 10 <;> simp [h]

theorem natToString_length_pos (n : Nat) : 0 < (natToString n).length := by
  have := natDigitsRev_ne_nil n
  simp only [natToString, String.length]
  cases hd : natDigitsRev n with
  | nil => exact absurd hd this
  | cons c cs => simp [hd]

theorem string_append_cancel_left {s t u : String} (h : s ++ t = s ++ u) : t = u := by
  have := congrArg String.data h
  simp only [String.data_append] at this
  exact String.ext (List.append_cancel_left this)

theorem string_append_cancel_right {s t u : String} (h : s ++ u = t ++ u) : s = t := by
  have := congrArg String.data h
  simp only [String.data_append] at this
  exact String.ext (List.append_cancel_right this)

theorem collCand_inj (base ext : String) {i j : Nat}
    (h : collCand base ext i = collCand base ext j) : i = j := by
  unfold collCand at h
  have h1 := string_append_cancel_right h
  have h2 := string_append_cancel_right h1
  exact natToString_injective (string_append_cancel_left h2)

/-! ## Pigeonhole machinery for the two unbounded uniqueness loops -/

theorem nodup_length_le {α} [DecidableEq α] :
    ∀ (c : List α) (i : List α), c.Nodup → (∀ x ∈ c, x ∈ i) → c.length ≤ i.length := by
  intro c
  induction c with
  | nil => intro i _ _; simp
  | cons a cs ih =>
    intro i hnd hsub
    have ha : a ∈ i := hsub a (List.mem_cons_self a cs)
    have hnd' := List.nodup_cons.mp hnd
    have hsub' : ∀ x ∈ cs, x ∈ i.erase a := by
      intro x hx
      have hne : x ≠ a := by
        intro he
        exact hnd'.1 (by rw [← he]; exact hx)
      exact (List.mem_erase_of_ne hne).mpr (hsub x (List.mem_cons_of_mem _ hx))
    have hlen := ih (i.erase a) hnd'.2 hsub'
    have herase : (i.erase a).length = i.length - 1 := List.length_erase_of_mem ha
    have hpos : 0 < i.length := List.length_pos.mpr (fun hnil => by simp [hnil] at ha)
    simp only [List.length_cons]
    omega

theorem exists_not_mem_of_length_lt {α} [DecidableEq α] (c i : List α)
    (hnd : c.Nodup) (hlt : i.length < c.length) : ∃ x ∈ c, x ∉ i := by
  by_contra hall
  push_neg at hall
  exact absurd (nodup_length_le c i hnd hall) (by omega)

theorem firstNotMem_not_mem (ids : List String) (fb : String) :
    ∀ cands : List String, (∃ c ∈ cands, c ∉ ids) → firstNotMem ids fb cands ∉ ids := by
  intro cands
  induction cands with
  | nil => rintro ⟨c, hc, _⟩; simp at hc
  | cons c cs ih =>
    rintro ⟨d, hd, hdfree⟩
    unfold firstNotMem
    by_cases hc : c ∈ ids
    · simp only [hc, if_true]
      apply ih
      rcases List.mem_cons.mp hd with rfl | hd'
      · exact absurd hc hdfree
      · exact ⟨d, hd', hdfree⟩
    · simp [hc]

theorem freeNameLoop_not_mem (dir : List String) (base ext : String) :
    ∀ (fuel c : Nat), (∃ k, k < fuel ∧ collCand base ext (c + k) ∉ dir) →
      freeNameLoop dir base ext fuel c ∉ dir := by
  intro fuel
  induction fuel with
  | zero => rintro c ⟨k, hk, _⟩; omega
  | succ fuel ih =>
    rintro c ⟨k, hk, hfree⟩
    unfold freeNameLoop
    by_cases hmem : collCand base ext c ∈ dir
    · rw [if_pos hmem]
      apply ih
      rcases k with _ | k'
      · exact absurd hmem (by simpa using hfree)
      · refine ⟨k', by omega, ?_⟩
        have heq : c + 1 + k' = c + (k' + 1) := by omega
        rw [heq]
        exact hfree
    · rw [if_neg hmem]
      exact hmem

theorem freeName_not_mem (dir : List String) (base ext : String) :
    freeName dir base ext ∉ dir := by
  unfold freeName
  apply freeNameLoop_not_mem
  have hinj : Function.Injective (fun k => collCand base ext (1 + k)) := by
    intro a b hab
    have := collCand_inj base ext hab
    omega
  have hnd : ((List.range (dir.length + 1)).map (fun k => collCand base ext (1 + k))).Nodup :=
    List.Nodup.map hinj (List.nodup_range _)
  have hlt : dir.length <
      ((List.range (dir.length + 1)).map (fun k => collCand base ext (1 + k))).length := by
    simp
  obtain ⟨x, hx, hxfree⟩ := exists_not_mem_of_length_lt _ dir hnd hlt
  obtain ⟨k, hk, rfl⟩ := List.mem_map.mp hx
  exact ⟨k, by simpa using List.mem_range.mp hk, hxfree⟩

theorem freshAlbumId_not_mem (ids : List String) (id : String) :
    freshAlbumId ids id ∉ ids := by
  unfold freshAlbumId
  apply firstNotMem_not_mem
  have hinj : Function.Injective (fun k => id ++ "-" ++ natToString (k + 2)) := by
    intro a b hab
    have := natToString_injective (string_append_cancel_left (u := natToString (b + 2)) hab)
    omega
  have hidlen : ∀ t ∈ (List.range (ids.length + 1)).map (fun k => id ++ "-" ++ natToString (k + 2)),
      id.length < t.length := by
    intro t ht
    obtain ⟨k, _, rfl⟩ := List.mem_map.mp ht
    have := natToString_length_pos (k + 2)
    simp only [String.length_append]
    omega
  have hnd : (albumCandidates id ids.length).Nodup := by
    unfold albumCandidates
    refine List.nodup_cons.mpr ⟨?_, List.Nodup.map hinj (List.nodup_range _)⟩
    intro hmem
    have := hidlen id hmem
    omega
  have hlt : ids.length < (albumCandidates id ids.length).length := by
    simp only [albumCandidates, List.length_cons, List.length_map, List.length_range]
    omega
  exact exists_not_mem_of_length_lt _ ids hnd hlt

/-! ## Lightbox: deep linking and bounds safety -/

theorem hashSlug_prefix_append (x : String) :
    hashSlug ("#photo=" ++ x) = some x := by
  unfold hashSlug
  rw [String.data_append]
  have hlen : (7 : Nat) = ("#photo=" : String).data.length := rfl
  rw [hlen, List.take_left, List.drop_left]
  rw [if_pos rfl]

theorem findIndexFrom_eq (pred : LbPhoto → Bool) :
    ∀ (l : List LbPhoto) (j i : Nat), j < l.length →
      pred (l.getD j arbLbPhoto) = true →
      (∀ k, k < j → pred (l.getD k arbLbPhoto) = false) →
      findIndexFrom pred i l = ((i + j : Nat) : Int) := by
  intro l
  induction l with
  | nil => intro j i hj _ _; simp at hj
  | cons p ps ih =>
    intro j i hj hpred hbefore
    cases j with
    | zero =>
      simp only [List.getD_cons_zero] at hpred
      simp [findIndexFrom, hpred]
    | succ j =>
      have hp0 : pred p = false := by
        have := hbefore 0 (Nat.succ_pos j)
        simpa using this
      simp only [findIndexFrom, hp0, Bool.false_eq_true, if_false]
      have := ih j (i + 1) (by simpa using hj)
        (by simpa using hpred)
        (fun k hk => by
          have := hbefore (k + 1) (by omega)
          simpa using this)
      rw [this]
      congr 1
      omega

theorem slugForJs_getD_ne (photos : List LbPhoto)
    (hnd : (photos.map slugForJs).Nodup) (k j : Nat)
    (hk : k < photos.length) (hj : j < photos.length) (hne : k ≠ j) :
    slugForJs (photos.getD k arbLbPhoto) ≠ slugForJs (photos.getD j arbLbPhoto) := by
  rw [List.getD_eq_getElem _ _ hk, List.getD_eq_getElem _ _ hj]
  intro heq
  have hmap : (photos.map slugForJs).get ⟨k, by simpa using hk⟩ =
      (photos.map slugForJs).get ⟨j, by simpa using hj⟩ := by
    simp only [List.get_eq_getElem, List.getElem_map]
    exact heq
  have := (hnd.get_inj_iff).mp hmap
  exact hne (congrArg Fin.val this)

/-- C5 (amended): when no two photos of the list share a slug, looking up
the slug of photos[i] returns i, so a location hash built from that slug
opens the lightbox on exactly that photo (checkHash), and show on a local
photo sets the address-bar hash to the photo prefix plus its slug. -/
theorem deep_link_round_trip (photos : List LbPhoto) (i : Nat)
    (hi : i < photos.length)
    (hnd : (photos.map slugForJs).Nodup) :
    indexBySlug photos (slugForJs (photos.getD i arbLbPhoto)) = (i : Int) ∧
    checkHashIndex ("#photo=" ++ slugForJs (photos.getD i arbLbPhoto)) photos = some (i : Int) ∧
    (∀ s : LbState, s.photos = photos →
      (photos.getD i arbLbPhoto).palBaseUrl = "" →
      (lbShow (i : Int) s).hash = some ("#photo=" ++ slugForJs (photos.getD i arbLbPhoto))) := by
  have hidx : indexBySlug photos (slugForJs (photos.getD i arbLbPhoto)) = (i : Int) := by
    unfold indexBySlug
    have := findIndexFrom_eq
      (fun p => decide (slugForJs p = slugForJs (photos.getD i arbLbPhoto)))
      photos i 0 hi (by simp)
      (fun k hk => by
        simp only [decide_eq_false_iff_not]
        exact slugForJs_getD_ne photos hnd k i (by omega) hi (by omega))
    simpa using this
  refine ⟨hidx, ?_, ?_⟩
  · unfold checkHashIndex
    rw [hashSlug_prefix_append]
    simp only [hidx]
    have hne : ((i : Int) ≠ -1) := by omega
    simp [hne]
  · intro s hs hlocal
    unfold lbShow
    have hcond : ¬ ((i : Int) < 0 ∨ (s.photos.length : Int) ≤ (i : Int)) := by
      rw [hs]
      omega
    rw [if_neg hcond]
    simp only [List.getD, List.get?_eq_getElem?] at hlocal
    simp [hs, Int.toNat_natCast, hlocal, List.getD]

/-- C5 witness at a concrete two-photo list with distinct slugs. -/
theorem deep_link_round_trip_witness :
    indexBySlug [⟨"a", "", "", "", ""⟩, ⟨"b", "", "", "", ""⟩]
      (slugForJs (List.getD [⟨"a", "", "", "", ""⟩, ⟨"b", "", "", "", ""⟩] 1 arbLbPhoto)) =
      (1 : Int) :=
  (deep_link_round_trip [⟨"a", "", "", "", ""⟩, ⟨"b", "", "", "", ""⟩] 1
    (by decide) (by decide)).1

/-- C5 counterexample: two local photos without slug fields, a.jpg and
a.png, both slugify to a; looking up the slug of photos[1] returns 0, not
1, so the deep-linking round trip fails as universally stated. -/
theorem deep_link_counterexample :
    indexBySlug lbPair (slugForJs (lbPair.getD 1 arbLbPhoto)) = (0 : Int) ∧
    ((0 : Int) ≠ (1 : Int)) ∧
    checkHashIndex ("#photo=" ++ slugForJs (lbPair.getD 1 arbLbPhoto)) lbPair =
      some (0 : Int) := by decide

/-- C9: the lightbox is bounds-safe: show and preload return with no state
change for every out-of-range index, Prev on the first photo and Next on
the last photo are no-ops, and show keeps the current index in range. -/
theorem lightbox_bounds_safe (s : LbState) (i : Int) :
    ((i < 0 ∨ (s.photos.length : Int) ≤ i) →
      lbShow i s = s ∧ lbPreload i s.photos = none) ∧
    ((0 ≤ s.currentIndex ∧ s.currentIndex < (s.photos.length : Int)) →
      0 ≤ (lbShow i s).currentIndex ∧
        (lbShow i s).currentIndex < (((lbShow i s).photos.length : Int))) ∧
    (s.currentIndex = 0 → lbShow (s.currentIndex - 1) s = s) ∧
    (s.currentIndex = (s.photos.length : Int) - 1 → lbShow (s.currentIndex + 1) s = s) := by
  refine ⟨?_, ?_, ?_, ?_⟩
  · intro h
    constructor
    · unfold lbShow
      rw [if_pos h]
    · unfold lbPreload
      rw [if_pos h]
  · intro hin
    unfold lbShow
    by_cases h : (i < 0 ∨ (s.photos.length : Int) ≤ i)
    · rw [if_pos h]
      exact hin
    · rw [if_neg h]
      push_neg at h
      exact ⟨h.1, h.2⟩
  · intro h0
    unfold lbShow
    rw [if_pos (Or.inl (by omega))]
  · intro hlast
    unfold lbShow
    rw [if_pos (Or.inr (by omega))]

/-- C9 witness: Prev from the first photo of a concrete two-photo state is
a no-op, and so is preloading index minus one. -/
theorem lightbox_bounds_safe_witness :
    lbShow (-1) lbPairState = lbPairState ∧ lbPreload (-1) lbPairState.photos = none :=
  (lightbox_bounds_safe lbPairState (-1)).1 (Or.inl (by decide))

/-! ## Admin album ids -/

/-- C10: saveAlbum creates a new album under an id that differs from every
existing album id (slugified title, timestamp fallback, increasing numeric
suffix while colliding), so distinct album ids stay distinct. -/
theorem album_ids_unique (albums : List Album) (title description coverSel : String)
    (selected : List String) (now : Nat)
    (h : (albums.map Album.id).Nodup) :
    ((saveAlbumNew albums title description coverSel selected now).map Album.id).Nodup := by
  unfold saveAlbumNew
  rw [List.map_append]
  refine List.nodup_append.mpr ⟨h, by simp, ?_⟩
  intro a ha hb
  simp only [List.map_cons, List.map_nil, List.mem_singleton] at hb
  subst hb
  exact freshAlbumId_not_mem (albums.map Album.id) _ ha

/-- C10 witness: adding a second album titled Trip next to an album with
id trip yields ids trip and trip-2. -/
theorem album_ids_unique_witness :
    ((saveAlbumNew [⟨"trip", "Trip", "", "", []⟩] "Trip" "" "" [] 0).map Album.id).Nodup ∧
    (saveAlbumNew [⟨"trip", "Trip", "", "", []⟩] "Trip" "" "" [] 0).map Album.id =
      ["trip", "trip-2"] :=
  ⟨album_ids_unique [⟨"trip", "Trip", "", "", []⟩] "Trip" "" "" [] 0 (by decide), by decide⟩

/-! ## process-photos.sh: frame lemmas -/

theorem insertByDate_perm (p : Photo) (l : List Photo) :
    (insertByDate p l).Perm (p :: l) := by
  induction l with
  | nil => exact List.Perm.refl _
  | cons q qs ih =>
    unfold insertByDate
    by_cases h : chLe p.date.data q.date.data
    · rw [if_pos h]
    · rw [if_neg h]
      exact (ih.cons q).trans (List.Perm.swap p q qs)

theorem sortByDate_perm (l : List Photo) : (sortByDate l).Perm l := by
  induction l with
  | nil => exact List.Perm.refl _
  | cons p ps ih =>
    exact (insertByDate_perm p (sortByDate ps)).trans (ih.cons p)

theorem mem_sortByDate_reverse {p : Photo} {l : List Photo} (h : p ∈ l) :
    p ∈ (sortByDate l).reverse := by
  rw [List.mem_reverse]
  exact ((sortByDate_perm l).mem_iff).mpr h

theorem processFile_photos_suffix (env : Env) (known : List String) (cap : String)
    (st : RunState) (f : String) :
    (∀ st1, processFile env known cap st f = .ok st1 →
      ∃ new, st1.photos = new ++ st.photos) ∧
    (∀ st1, processFile env known cap st f = .error st1 →
      ∃ new, st1.photos = new ++ st.photos) := by
  simp only [processFile]
  split_ifs <;>
    exact ⟨fun st1 h => by
        cases h <;> first
          | exact ⟨[], rfl⟩
          | exact ⟨[mkEntry env cap _], rfl⟩,
      fun st1 h => by
        cases h <;> exact ⟨[], rfl⟩⟩

theorem runFiles_photos_suffix (env : Env) (known : List String) (cap : String) :
    ∀ (glob : List String) (st : RunState),
      (match runFiles env known cap st glob with
       | .ok st1 => ∃ new, st1.photos = new ++ st.photos
       | .aborted st1 => ∃ new, st1.photos = new ++ st.photos) := by
  intro glob
  induction glob with
  | nil => intro st; exact ⟨[], rfl⟩
  | cons f fs ih =>
    intro st
    unfold runFiles
    rcases hpf : processFile env known cap st f with st1 | st1
    · -- set -e abort
      obtain ⟨new, hnew⟩ := (processFile_photos_suffix env known cap st f).2 st1 hpf
      exact show ∃ new, st1.photos = new ++ st.photos from ⟨new, hnew⟩
    · obtain ⟨new1, hnew1⟩ := (processFile_photos_suffix env known cap st f).1 st1 hpf
      have hsuf := ih st1
      change (match runFiles env known cap st1 fs with
        | RunOutcome.ok st2 => ∃ new, st2.photos = new ++ st.photos
        | RunOutcome.aborted st2 => ∃ new, st2.photos = new ++ st.photos)
      rcases hrun : runFiles env known cap st1 fs with st2 | st2 <;> rw [hrun] at hsuf <;>
        · obtain ⟨new2, hnew2⟩ := hsuf
          exact ⟨new2 ++ new1, by rw [hnew2, hnew1, List.append_assoc]⟩

/-- C6: a run of process-photos.sh only adds photo entries: every entry of
the photos array before the run is present, field for field, after the run
(the prepend keeps old entries intact and the newest-first re-sort only
permutes), and the profile object is never modified.  This holds whether
the run completes or is killed by set -e. -/
theorem run_only_adds_entries (env : Env) (cap : String) (glob : List String)
    (m : Manifest) :
    (processPhotosRun env cap glob m).manifest.profile = m.profile ∧
    ∀ p ∈ m.photos, p ∈ (processPhotosRun env cap glob m).manifest.photos := by
  have hsuf := runFiles_photos_suffix env (m.photos.map (·.filename)) cap glob
    ⟨glob, m.photos, 0, 0⟩
  rcases hrun : runFiles env (m.photos.map (·.filename)) cap ⟨glob, m.photos, 0, 0⟩ glob
    with st | st <;> rw [hrun] at hsuf <;> obtain ⟨new, hnew⟩ := hsuf
  · -- completed run
    constructor
    · simp only [processPhotosRun, hrun]
    · intro p hp
      simp only [processPhotosRun, hrun]
      by_cases hnc : st.newCount > 0
      · simp only [hnc, if_pos]
        apply mem_sortByDate_reverse
        rw [hnew]
        exact List.mem_append_right _ hp
      · simp only [hnc, if_neg, not_false_iff]
        rw [hnew]
        exact List.mem_append_right _ hp
  · -- run killed by set -e: entries written so far stay in the JSON file
    constructor
    · simp only [processPhotosRun, hrun]
    · intro p hp
      simp only [processPhotosRun, hrun]
      rw [hnew]
      exact List.mem_append_right _ hp

/-- C6 witness at a concrete one-entry manifest and one new file. -/
theorem run_only_adds_entries_witness :
    (processPhotosRun envTrue "" ["b.jpg"]
      ⟨emptyProfile, [mkEntry envTrue "" "old.jpg"]⟩).manifest.profile = emptyProfile ∧
    mkEntry envTrue "" "old.jpg" ∈ (processPhotosRun envTrue "" ["b.jpg"]
      ⟨emptyProfile, [mkEntry envTrue "" "old.jpg"]⟩).manifest.photos :=
  ⟨(run_only_adds_entries envTrue "" ["b.jpg"]
      ⟨emptyProfile, [mkEntry envTrue "" "old.jpg"]⟩).1,
    (run_only_adds_entries envTrue "" ["b.jpg"]
      ⟨emptyProfile, [mkEntry envTrue "" "old.jpg"]⟩).2
      (mkEntry envTrue "" "old.jpg") (by decide)⟩

/-! ## process-photos.sh: runs over sanitizer-stable directories -/

theorem processFile_fixpoint (env : Env) (known : List String) (cap : String)
    (st : RunState) (f : String) (hfix : sanitize f = f) :
    processFile env known cap st f =
      if f ∉ st.dir then .ok st
      else if isHidden f then .ok st
      else if ¬ isSupportedImage (lowerString (extOf f)) then
        .ok { st with skipped := st.skipped + 1 }
      else if f ∈ known then .ok st
      else if env.convert f then
        .ok { st with photos := mkEntry env cap f :: st.photos,
                      newCount := st.newCount + 1 }
      else .error st := by
  simp [processFile, hfix]

theorem runFiles_skip_known (env : Env) (known : List String) (cap : String) :
    ∀ (glob : List String) (st : RunState),
      (∀ f ∈ glob, sanitize f = f ∧
        (isHidden f = false → isSupportedImage (lowerString (extOf f)) = true →
          f ∈ known)) →
      ∃ sk, runFiles env known cap st glob =
        .ok { dir := st.dir, photos := st.photos, newCount := st.newCount,
              skipped := sk } := by
  intro glob
  induction glob with
  | nil =>
    intro st _
    exact ⟨st.skipped, by cases st; rfl⟩
  | cons f fs ih =>
    intro st h
    have hf := h f (List.mem_cons_self f fs)
    have htail : ∀ g ∈ fs, sanitize g = g ∧
        (isHidden g = false → isSupportedImage (lowerString (extOf g)) = true →
          g ∈ known) :=
      fun g hg => h g (List.mem_cons_of_mem _ hg)
    unfold runFiles
    rw [processFile_fixpoint env known cap st f hf.1]
    by_cases h1 : f ∈ st.dir
    · rw [if_neg (not_not_intro h1)]
      by_cases h2 : isHidden f
      · rw [if_pos h2]
        exact ih st htail
      · rw [if_neg h2]
        by_cases h3 : isSupportedImage (lowerString (extOf f))
        · rw [if_neg (not_not_intro h3)]
          have hknown : f ∈ known :=
            hf.2 (by simpa using h2) (by simpa using h3)
          rw [if_pos hknown]
          exact ih st htail
        · rw [if_pos h3]
          obtain ⟨sk, hsk⟩ := ih { st with skipped := st.skipped + 1 } htail
          exact ⟨sk, hsk⟩
    · rw [if_pos h1]
      exact ih st htail

theorem runFiles_covers (env : Env) (known : List String) (cap : String) :
    ∀ (glob : List String) (st st1 : RunState),
      (∀ f ∈ glob, sanitize f = f) →
      (∀ f ∈ glob, f ∈ st.dir) →
      runFiles env known cap st glob = .ok st1 →
      st1.dir = st.dir ∧
      (∀ f ∈ glob, isHidden f = false →
        isSupportedImage (lowerString (extOf f)) = true →
        (f ∈ known ∨ f ∈ st1.photos.map (·.filename))) := by
  intro glob
  induction glob with
  | nil =>
    intro st st1 _ _ hrun
    cases hrun
    exact ⟨rfl, by simp⟩
  | cons f fs ih =>
    intro st st1 hfix hdir hrun
    have hfd : f ∈ st.dir := hdir f (List.mem_cons_self f fs)
    have hffix := hfix f (List.mem_cons_self f fs)
    have htailfix : ∀ g ∈ fs, sanitize g = g :=
      fun g hg => hfix g (List.mem_cons_of_mem _ hg)
    unfold runFiles at hrun
    rw [processFile_fixpoint env known cap st f hffix] at hrun
    rw [if_neg (not_not_intro hfd)] at hrun
    by_cases h2 : isHidden f
    · rw [if_pos h2] at hrun
      obtain ⟨hd, hcov⟩ := ih st st1 htailfix
        (fun g hg => hdir g (List.mem_cons_of_mem _ hg)) hrun
      refine ⟨hd, ?_⟩
      intro g hg hgh hgs
      rcases List.mem_cons.mp hg with rfl | hg'
      · rw [h2] at hgh
        cases hgh
      · exact hcov g hg' hgh hgs
    · rw [if_neg h2] at hrun
      by_cases h3 : isSupportedImage (lowerString (extOf f))
      · rw [if_neg (not_not_intro h3)] at hrun
        by_cases h4 : f ∈ known
        · rw [if_pos h4] at hrun
          obtain ⟨hd, hcov⟩ := ih st st1 htailfix
            (fun g hg => hdir g (List.mem_cons_of_mem _ hg)) hrun
          refine ⟨hd, ?_⟩
          intro g hg hgh hgs
          rcases List.mem_cons.mp hg with rfl | hg'
          · exact Or.inl h4
          · exact hcov g hg' hgh hgs
        · rw [if_neg h4] at hrun
          by_cases h5 : env.convert f
          · rw [if_pos h5] at hrun
            have hrun' : runFiles env known cap
                { st with photos := mkEntry env cap f :: st.photos,
                          newCount := st.newCount + 1 } fs = .ok st1 := hrun
            obtain ⟨hd, hcov⟩ := ih
              { st with photos := mkEntry env cap f :: st.photos,
                        newCount := st.newCount + 1 } st1 htailfix
              (fun g hg => hdir g (List.mem_cons_of_mem _ hg)) hrun'
            have hsuffix := runFiles_photos_suffix env known cap fs
              { st with photos := mkEntry env cap f :: st.photos,
                        newCount := st.newCount + 1 }
            rw [hrun'] at hsuffix
            obtain ⟨new, hnew⟩ := hsuffix
            refine ⟨by simpa using hd, ?_⟩
            intro g hg hgh hgs
            rcases List.mem_cons.mp hg with rfl | hg'
            · refine Or.inr ?_
              rw [hnew, List.map_append]
              refine List.mem_append_right _ ?_
              simp [mkEntry]
            · exact hcov g hg' hgh hgs
          · rw [if_neg h5] at hrun
            cases hrun
      · rw [if_pos h3] at hrun
        obtain ⟨hd, hcov⟩ := ih { st with skipped := st.skipped + 1 } st1 htailfix
          (fun g hg => hdir g (List.mem_cons_of_mem _ hg)) hrun
        refine ⟨hd, ?_⟩
        intro g hg hgh hgs
        rcases List.mem_cons.mp hg with rfl | hg'
        · rw [hgs] at h3
          exact absurd rfl h3
        · exact hcov g hg' hgh hgs

/-- C1 (amended): when every filename in the directory is a fixed point of
the sanitizer (as after any prior run that performed no collision rename),
a completed run leaves the directory unchanged, and a second run over that
unchanged directory and the manifest the first run produced changes
nothing: every supported file is already tracked and skipped, no entry is
added or removed, new_count stays 0, and the re-sort and sitemap steps
(both guarded by new_count) do not execute. -/
theorem second_run_is_noop (env1 env2 : Env) (cap1 cap2 : String)
    (glob : List String) (m : Manifest)
    (hfix : ∀ f ∈ glob, sanitize f = f)
    (hok : (processPhotosRun env1 cap1 glob m).wasAborted = false) :
    (processPhotosRun env1 cap1 glob m).dir = glob ∧
    ((processPhotosRun env2 cap2 (processPhotosRun env1 cap1 glob m).dir
        (processPhotosRun env1 cap1 glob m).manifest).manifest =
      (processPhotosRun env1 cap1 glob m).manifest ∧
      (processPhotosRun env2 cap2 (processPhotosRun env1 cap1 glob m).dir
        (processPhotosRun env1 cap1 glob m).manifest).newCount = 0 ∧
      (processPhotosRun env2 cap2 (processPhotosRun env1 cap1 glob m).dir
        (processPhotosRun env1 cap1 glob m).manifest).dir = glob ∧
      (processPhotosRun env2 cap2 (processPhotosRun env1 cap1 glob m).dir
        (processPhotosRun env1 cap1 glob m).manifest).wasAborted = false ∧
      (processPhotosRun env2 cap2 (processPhotosRun env1 cap1 glob m).dir
        (processPhotosRun env1 cap1 glob m).manifest).sitemap = none) := by
  rcases hrun : runFiles env1 (m.photos.map (·.filename)) cap1 ⟨glob, m.photos, 0, 0⟩ glob
    with st | st
  case aborted =>
    exfalso
    simp only [processPhotosRun, hrun] at hok
    cases hok
  case ok =>
    obtain ⟨hd, hcov⟩ := runFiles_covers env1 (m.photos.map (·.filename)) cap1 glob
      ⟨glob, m.photos, 0, 0⟩ st hfix (fun f hf => hf) hrun
    have hsuffix := runFiles_photos_suffix env1 (m.photos.map (·.filename)) cap1 glob
      ⟨glob, m.photos, 0, 0⟩
    rw [hrun] at hsuffix
    obtain ⟨new, hnew⟩ := hsuffix
    -- the manifest the first run writes
    have hr1 : processPhotosRun env1 cap1 glob m =
        { manifest := { m with photos :=
            if st.newCount > 0 then (sortByDate st.photos).reverse else st.photos },
          dir := st.dir, newCount := st.newCount, skipped := st.skipped,
          wasAborted := false,
          sitemap := if st.newCount > 0 ∧ m.profile.siteUrl ≠ "" then
            some ((if st.newCount > 0 then (sortByDate st.photos).reverse
              else st.photos).map (·.slug))
          else none } := by
      simp only [processPhotosRun, hrun]
    set photos1 : List Photo :=
      if st.newCount > 0 then (sortByDate st.photos).reverse else st.photos with hphotos1
    -- every filename of the first-run state survives into the written array
    have hmem1 : ∀ g : String, g ∈ st.photos.map (·.filename) →
        g ∈ photos1.map (·.filename) := by
      intro g hg
      obtain ⟨p, hp, hpg⟩ := List.mem_map.mp hg
      refine List.mem_map.mpr ⟨p, ?_, hpg⟩
      rw [hphotos1]
      by_cases hnc : st.newCount > 0
      · rw [if_pos hnc]
        exact mem_sortByDate_reverse hp
      · rw [if_neg hnc]
        exact hp
    -- every supported non-hidden file of the directory is tracked
    have hknown2 : ∀ f ∈ glob, sanitize f = f ∧
        (isHidden f = false → isSupportedImage (lowerString (extOf f)) = true →
          f ∈ photos1.map (·.filename)) := by
      intro f hf
      refine ⟨hfix f hf, fun hh hs => ?_⟩
      rcases hcov f hf hh hs with hk | hin
      · apply hmem1
        rw [hnew, List.map_append]
        exact List.mem_append_right _ hk
      · exact hmem1 f hin
    obtain ⟨sk, hsk⟩ := runFiles_skip_known env2 (photos1.map (·.filename)) cap2 glob
      ⟨glob, photos1, 0, 0⟩ hknown2
    have hdir1 : st.dir = glob := hd
    constructor
    · rw [hr1]
      exact hdir1
    · rw [hr1]
      simp only [hdir1]
      have hr2 : processPhotosRun env2 cap2 glob { m with photos := photos1 } =
          { manifest := { m with photos := photos1 }, dir := glob,
            newCount := 0, skipped := sk, wasAborted := false, sitemap := none } := by
        simp only [processPhotosRun, hsk]
        simp
      rw [hr2]
      exact ⟨rfl, rfl, rfl, rfl, rfl⟩

/-- C1 witness: a concrete sanitizer-stable directory of two files, run
twice from the empty manifest. -/
theorem second_run_is_noop_witness :
    (processPhotosRun envTrue "" ["a.jpg", "b.jpg"] emptyManifest).dir = ["a.jpg", "b.jpg"] ∧
    ((processPhotosRun envTrue "" (processPhotosRun envTrue "" ["a.jpg", "b.jpg"]
        emptyManifest).dir
        (processPhotosRun envTrue "" ["a.jpg", "b.jpg"] emptyManifest).manifest).manifest =
      (processPhotosRun envTrue "" ["a.jpg", "b.jpg"] emptyManifest).manifest ∧
      (processPhotosRun envTrue "" (processPhotosRun envTrue "" ["a.jpg", "b.jpg"]
        emptyManifest).dir
        (processPhotosRun envTrue "" ["a.jpg", "b.jpg"] emptyManifest).manifest).newCount = 0 ∧
      (processPhotosRun envTrue "" (processPhotosRun envTrue "" ["a.jpg", "b.jpg"]
        emptyManifest).dir
        (processPhotosRun envTrue "" ["a.jpg", "b.jpg"] emptyManifest).manifest).dir =
        ["a.jpg", "b.jpg"] ∧
      (processPhotosRun envTrue "" (processPhotosRun envTrue "" ["a.jpg", "b.jpg"]
        emptyManifest).dir
        (processPhotosRun envTrue "" ["a.jpg", "b.jpg"] emptyManifest).manifest).wasAborted =
        false ∧
      (processPhotosRun envTrue "" (processPhotosRun envTrue "" ["a.jpg", "b.jpg"]
        emptyManifest).dir
        (processPhotosRun envTrue "" ["a.jpg", "b.jpg"] emptyManifest).manifest).sitemap =
        none) :=
  second_run_is_noop envTrue envTrue "" "" ["a.jpg", "b.jpg"] emptyManifest
    (by decide) (by decide)

/-- C1 counterexample: the collision-avoidance rename of the first run can
produce a name that is not sanitizer-stable.  Over the directory holding
files named a space hyphen dot jpg and a hyphen dot jpg, the first run
renames the former to a double-hyphen name; a second run over the
untouched directory renames it again, treats it as a new photo,
increments new_count and changes data photos.json — the claimed
idempotence fails. -/
theorem second_run_counterexample :
    (processPhotosRun envTrue "" ["a -.jpg", "a-.jpg"] emptyManifest).wasAborted = false ∧
    (processPhotosRun envTrue ""
      (processPhotosRun envTrue "" ["a -.jpg", "a-.jpg"] emptyManifest).dir
      (processPhotosRun envTrue "" ["a -.jpg", "a-.jpg"] emptyManifest).manifest).newCount
      = 1 ∧
    (processPhotosRun envTrue ""
      (processPhotosRun envTrue "" ["a -.jpg", "a-.jpg"] emptyManifest).dir
      (processPhotosRun envTrue "" ["a -.jpg", "a-.jpg"] emptyManifest).manifest).manifest
      ≠ (processPhotosRun envTrue "" ["a -.jpg", "a-.jpg"] emptyManifest).manifest := by
  decide

/-! ## process-photos.sh: filename uniqueness -/

theorem renameTarget_not_mem (dir : List String) (f : String) :
    renameTarget dir f ∉ dir := by
  unfold renameTarget
  by_cases h : sanitize f ∈ dir
  · rw [if_pos h]
    exact freeName_not_mem dir _ _
  · rw [if_neg h]
    exact h

theorem processFile_rename_eq (env : Env) (known : List String) (cap : String)
    (st : RunState) (f : String) (hne : sanitize f ≠ f) (hmem : f ∈ st.dir)
    (hnh : isHidden f = false) :
    processFile env known cap st f =
      (if ¬ isSupportedImage (lowerString (extOf (renameTarget st.dir f))) then
        .ok { st with dir := renameTarget st.dir f :: st.dir.erase f,
                      skipped := st.skipped + 1 }
      else if renameTarget st.dir f ∈ known then
        .ok { st with dir := renameTarget st.dir f :: st.dir.erase f }
      else if env.convert (renameTarget st.dir f) then
        .ok { st with dir := renameTarget st.dir f :: st.dir.erase f,
                      photos := mkEntry env cap (renameTarget st.dir f) :: st.photos,
                      newCount := st.newCount + 1 }
      else .error { st with dir := renameTarget st.dir f :: st.dir.erase f }) := by
  simp [processFile, hne, hmem, hnh, renameTarget]

theorem runFiles_filenames_nodup (env : Env) (known : List String) (cap : String) :
    ∀ (glob : List String) (st : RunState),
      glob.Nodup →
      (∀ f ∈ glob, f ∈ st.dir) →
      (st.photos.map (·.filename)).Nodup →
      (∀ p ∈ st.photos, p.filename ∈ known ∨
        (p.filename ∈ st.dir ∧ p.filename ∉ glob)) →
      (match runFiles env known cap st glob with
       | .ok st1 => (st1.photos.map (·.filename)).Nodup
       | .aborted st1 => (st1.photos.map (·.filename)).Nodup) := by
  intro glob
  induction glob with
  | nil =>
    intro st _ _ hnd _
    exact hnd
  | cons f fs ih =>
    intro st hglob hdir hnd hinv
    have hfd : f ∈ st.dir := hdir f (List.mem_cons_self f fs)
    have hglob' := List.nodup_cons.mp hglob
    have htaildir : ∀ g ∈ fs, g ∈ st.dir :=
      fun g hg => hdir g (List.mem_cons_of_mem _ hg)
    have htailne : ∀ g ∈ fs, g ≠ f :=
      fun g hg he => hglob'.1 (he ▸ hg)
    -- weakening the per-photo invariant from f :: fs to fs keeps it valid
    have hinv' : ∀ p ∈ st.photos, p.filename ∈ known ∨
        (p.filename ∈ st.dir ∧ p.filename ∉ fs) := by
      intro p hp
      rcases hinv p hp with hk | ⟨hd1, hd2⟩
      · exact Or.inl hk
      · exact Or.inr ⟨hd1, fun hmem => hd2 (List.mem_cons_of_mem _ hmem)⟩
    show (match runFiles env known cap st (f :: fs) with
       | RunOutcome.ok st1 => (st1.photos.map (·.filename)).Nodup
       | RunOutcome.aborted st1 => (st1.photos.map (·.filename)).Nodup)
    unfold runFiles
    by_cases hsan : sanitize f = f
    · -- no rename: the directory is untouched
      rw [processFile_fixpoint env known cap st f hsan,
        if_neg (not_not_intro hfd)]
      by_cases h2 : isHidden f
      · rw [if_pos h2]
        exact ih st hglob'.2 htaildir hnd hinv'
      · rw [if_neg h2]
        by_cases h3 : isSupportedImage (lowerString (extOf f))
        · rw [if_neg (not_not_intro h3)]
          by_cases h4 : f ∈ known
          · rw [if_pos h4]
            exact ih st hglob'.2 htaildir hnd hinv'
          · rw [if_neg h4]
            by_cases h5 : env.convert f
            · rw [if_pos h5]
              have hfresh : f ∉ st.photos.map (·.filename) := by
                intro hmem
                obtain ⟨p, hp, hpf⟩ := List.mem_map.mp hmem
                rcases hinv p hp with hk | ⟨_, hd2⟩
                · exact h4 (hpf ▸ hk)
                · exact hd2 (hpf ▸ List.mem_cons_self f fs)
              refine ih _ hglob'.2 htaildir ?_ ?_
              · simp only [List.map_cons, mkEntry]
                exact List.nodup_cons.mpr ⟨hfresh, hnd⟩
              · intro p hp
                rcases List.mem_cons.mp hp with rfl | hp'
                · refine Or.inr ⟨?_, ?_⟩
                  · simpa [mkEntry] using hfd
                  · simp only [mkEntry]
                    intro hmem
                    exact hglob'.1 hmem
                · exact hinv' p hp'
            · rw [if_neg h5]
              exact hnd
        · rw [if_pos h3]
          exact ih _ hglob'.2 htaildir hnd hinv'
    · -- rename to a fresh name
      have h2 : isHidden f = true ∨ isHidden f = false := by
        cases isHidden f <;> simp
      rcases h2 with h2 | h2
      · rw [processFile]
        rw [if_neg (not_not_intro hfd), if_pos h2]
        exact ih st hglob'.2 htaildir hnd hinv'
      · rw [processFile_rename_eq env known cap st f hsan hfd h2]
        have htgt : renameTarget st.dir f ∉ st.dir := renameTarget_not_mem st.dir f
        have htaildir1 : ∀ g ∈ fs, g ∈ renameTarget st.dir f :: st.dir.erase f := by
          intro g hg
          exact List.mem_cons_of_mem _
            ((List.mem_erase_of_ne (htailne g hg)).mpr (htaildir g hg))
        have hinv1 : ∀ p ∈ st.photos, p.filename ∈ known ∨
            (p.filename ∈ renameTarget st.dir f :: st.dir.erase f ∧ p.filename ∉ fs) := by
          intro p hp
          rcases hinv p hp with hk | ⟨hd1, hd2⟩
          · exact Or.inl hk
          · refine Or.inr ⟨?_, fun hmem => hd2 (List.mem_cons_of_mem _ hmem)⟩
            have hne : p.filename ≠ f := fun he => hd2 (he ▸ List.mem_cons_self f fs)
            exact List.mem_cons_of_mem _ ((List.mem_erase_of_ne hne).mpr hd1)
        by_cases h3 : isSupportedImage (lowerString (extOf (renameTarget st.dir f)))
        · rw [if_neg (not_not_intro h3)]
          by_cases h4 : renameTarget st.dir f ∈ known
          · rw [if_pos h4]
            exact ih _ hglob'.2 htaildir1 hnd hinv1
          · rw [if_neg h4]
            by_cases h5 : env.convert (renameTarget st.dir f)
            · rw [if_pos h5]
              have hfresh : renameTarget st.dir f ∉ st.photos.map (·.filename) := by
                intro hmem
                obtain ⟨p, hp, hpf⟩ := List.mem_map.mp hmem
                rcases hinv p hp with hk | ⟨hd1, _⟩
                · exact h4 (hpf ▸ hk)
                · exact htgt (hpf ▸ hd1)
              refine ih _ hglob'.2 htaildir1 ?_ ?_
              · simp only [List.map_cons, mkEntry]
                exact List.nodup_cons.mpr ⟨hfresh, hnd⟩
              · intro p hp
                rcases List.mem_cons.mp hp with rfl | hp'
                · refine Or.inr ⟨?_, ?_⟩
                  · simp [mkEntry]
                  · simp only [mkEntry]
                    intro hmem
                    exact htgt (htaildir (renameTarget st.dir f) hmem)
                · exact hinv1 p hp'
            · rw [if_neg h5]
              exact hnd
        · rw [if_pos h3]
          exact ih _ hglob'.2 htaildir1 hnd hinv1

/-- Helper shared by the filename-uniqueness claims: one run of
process-photos.sh preserves distinctness of the filename fields, because
the duplicate check (known_files plus the on-disk collision avoidance)
keys on filenames. -/
theorem processPhotosRun_filenames_nodup (env : Env) (cap : String)
    (glob : List String) (m : Manifest)
    (hglob : glob.Nodup)
    (hm : (m.photos.map (·.filename)).Nodup) :
    ((processPhotosRun env cap glob m).manifest.photos.map (·.filename)).Nodup := by
  have hstep := runFiles_filenames_nodup env (m.photos.map (·.filename)) cap glob
    ⟨glob, m.photos, 0, 0⟩ hglob (fun f hf => hf) hm
    (fun p hp => Or.inl (List.mem_map.mpr ⟨p, hp, rfl⟩))
  rcases hrun : runFiles env (m.photos.map (·.filename)) cap ⟨glob, m.photos, 0, 0⟩ glob
    with st | st <;> rw [hrun] at hstep
  · simp only [processPhotosRun, hrun]
    by_cases hnc : st.newCount > 0
    · simp only [hnc, if_pos]
      have hperm : ((sortByDate st.photos).reverse.map (·.filename)).Perm
          (st.photos.map (·.filename)) :=
        List.Perm.map _ ((List.reverse_perm _).trans (sortByDate_perm _))
      exact (hperm.nodup_iff).mpr hstep
    · simp only [hnc, if_neg, not_false_iff]
      exact hstep
  · simp only [processPhotosRun, hrun]
    exact hstep

/-- C2 (amended): the processing pipeline guarantees uniqueness of
filenames, not slugs: a run of process-photos.sh over a directory listing
of distinct names, from a manifest with distinct filename fields, yields
distinct filename fields again — but two distinct filenames (for example
differing only in case) may produce the same slug, since the
already-tracked check compares filenames only. -/
theorem filenames_unique_per_run (env : Env) (cap : String)
    (glob : List String) (m : Manifest)
    (hglob : glob.Nodup)
    (hm : (m.photos.map (·.filename)).Nodup) :
    ((processPhotosRun env cap glob m).manifest.photos.map (·.filename)).Nodup :=
  processPhotosRun_filenames_nodup env cap glob m hglob hm

/-- C2 witness at a concrete run adding two files to the empty manifest. -/
theorem filenames_unique_per_run_witness :
    ((processPhotosRun envTrue "" ["a.jpg", "b.jpg"]
      emptyManifest).manifest.photos.map (·.filename)).Nodup :=
  filenames_unique_per_run envTrue "" ["a.jpg", "b.jpg"] emptyManifest
    (by decide) (by decide)

/-- C2 counterexample: one run over files A.jpg and a.jpg (distinct
filenames, both sanitizer-stable) stores two entries whose slugs are both
the single letter a, refuting slug uniqueness as stated; the filenames
stay distinct. -/
theorem slug_uniqueness_counterexample :
    (processPhotosRun envDates "" ["A.jpg", "a.jpg"] emptyManifest).manifest.photos.map
        (·.slug) = ["a", "a"] ∧
    ¬ ((processPhotosRun envDates "" ["A.jpg", "a.jpg"] emptyManifest).manifest.photos.map
        (·.slug)).Nodup ∧
    ((processPhotosRun envDates "" ["A.jpg", "a.jpg"] emptyManifest).manifest.photos.map
        (·.filename)).Nodup := by decide

/-- C4 (amended): filename uniqueness is an invariant of any sequence of
process-photos.sh runs (each over a duplicate-free directory listing) —
but not of the Instagram import, which deduplicates by slug only. -/
theorem filenames_unique_over_runs (rs : List RunSpec) (m : Manifest)
    (hglobs : ∀ r ∈ rs, r.glob.Nodup)
    (hm : (m.photos.map (·.filename)).Nodup) :
    ((runSeq rs m).photos.map (·.filename)).Nodup := by
  induction rs generalizing m with
  | nil => exact hm
  | cons r rest ih =>
    unfold runSeq
    exact ih _ (fun q hq => hglobs q (List.mem_cons_of_mem _ hq))
      (processPhotosRun_filenames_nodup r.env r.caption r.glob m
        (hglobs r (List.mem_cons_self r rest)) hm)

/-- C4 witness: a two-run sequence over concrete directories. -/
theorem filenames_unique_over_runs_witness :
    ((runSeq [⟨envTrue, "", ["a.jpg"]⟩, ⟨envTrue, "", ["a.jpg", "b.jpg"]⟩]
      emptyManifest).photos.map (·.filename)).Nodup :=
  filenames_unique_over_runs
    [⟨envTrue, "", ["a.jpg"]⟩, ⟨envTrue, "", ["a.jpg", "b.jpg"]⟩]
    emptyManifest (by decide) (by decide)

/-- C4 counterexample: after process-photos.sh tracks photo1.jpg, an
Instagram import of a post whose first media file is also named
photo1.jpg appends a second entry with the same filename field (the import
deduplicates by its ig-timestamp slug, never by filename), so the
photos array holds two entries with equal filenames. -/
theorem filename_uniqueness_counterexample :
    (importRun ienvTrue [⟨"cap", some 100, [⟨"media/photo1.jpg", "", none⟩]⟩]
        (processPhotosRun envTrue "" ["photo1.jpg"] emptyManifest).manifest).1.photos.map
        (·.filename) = ["photo1.jpg", "photo1.jpg"] ∧
    ¬ ((importRun ienvTrue [⟨"cap", some 100, [⟨"media/photo1.jpg", "", none⟩]⟩]
        (processPhotosRun envTrue "" ["photo1.jpg"] emptyManifest).manifest).1.photos.map
        (·.filename)).Nodup := by decide

/-! ## Error handling -/

theorem runFiles_cons (env : Env) (known : List String) (cap : String)
    (st : RunState) (f : String) (fs : List String) :
    runFiles env known cap st (f :: fs) =
      match processFile env known cap st f with
      | .ok st1 => runFiles env known cap st1 fs
      | .error st1 => .aborted st1 := rfl

theorem mediaFold_cons (env : ImportEnv) (slug : String) (mc mi : Nat)
    (item : MediaItem) (rest : List MediaItem) :
    mediaFold env slug mc mi (item :: rest) =
      (let outBase := if mc > 1 then slug ++ "-" ++ natToString (mi + 1) else slug
       let r := mediaStep env outBase item
       let rec1 := mediaFold env slug mc (mi + 1) rest
       (match r.1 with
        | some e => e :: rec1.1
        | none => rec1.1, r.2 || rec1.2)) := rfl

/-- C3 (amended): the pipeline's failure handling is warn-and-skip except
in two places the claim missed.  In process-photos.sh an unsupported
extension is warned about, counted and skipped while the loop continues,
but a failed ImageMagick conversion kills the whole run (set -e), leaving
the remaining files unprocessed.  In the Instagram import (which runs
without set -e) a missing or failed media item is skipped while the loop
continues with the rest, a post all of whose media failed is skipped with
the error counter bumped, and the poster-frame extraction makes exactly
one fallback retry before giving up. -/
theorem skip_and_warn_amended :
    (∀ (env : Env) (known : List String) (cap : String) (st : RunState)
        (f : String) (rest : List String),
      f ∈ st.dir → isHidden f = false → sanitize f = f →
      isSupportedImage (lowerString (extOf f)) = false →
      runFiles env known cap st (f :: rest) =
        runFiles env known cap { st with skipped := st.skipped + 1 } rest) ∧
    (∀ (env : Env) (known : List String) (cap : String) (st : RunState)
        (f : String) (rest : List String),
      f ∈ st.dir → isHidden f = false → sanitize f = f →
      isSupportedImage (lowerString (extOf f)) = true → f ∉ known →
      env.convert f = false →
      runFiles env known cap st (f :: rest) = .aborted st) ∧
    (∀ (env : ImportEnv) (slug : String) (mc mi : Nat) (item : MediaItem)
        (rest : List MediaItem),
      env.fileExists item.uri = false →
      (mediaFold env slug mc mi (item :: rest)).1 =
        (mediaFold env slug mc (mi + 1) rest).1) ∧
    (∀ (env : ImportEnv) (knownSlugs : List String) (idx : Nat)
        (st : ImportState) (post : IgPost),
      igSlug env idx post ∉ knownSlugs →
      (mediaFold env (igSlug env idx post) post.media.length 0 post.media).1 = [] →
      importPost env knownSlugs idx st post = { st with errors := st.errors + 1 }) ∧
    (∀ (env : ImportEnv) (outBase : String) (item : MediaItem),
      item.uri ≠ "" → env.fileExists item.uri = true →
      isVideoExt (lowerString (extOf (basename item.uri))) = true →
      env.hasFfmpeg = true → env.encodeOk item.uri = true →
      env.posterOk item.uri = false → env.posterFallbackOk item.uri = true →
      env.videoThumbOk item.uri = true →
      (mediaStep env outBase item).1.isSome = true) := by
  refine ⟨?_, ?_, ?_, ?_, ?_⟩
  · intro env known cap st f rest hmem hnh hsan hsupp
    rw [runFiles_cons, processFile_fixpoint env known cap st f hsan,
      if_neg (not_not_intro hmem), if_neg (by rw [hnh]; exact Bool.false_ne_true),
      if_pos (by rw [hsupp]; exact Bool.false_ne_true)]
  · intro env known cap st f rest hmem hnh hsan hsupp hkn hcv
    rw [runFiles_cons, processFile_fixpoint env known cap st f hsan,
      if_neg (not_not_intro hmem), if_neg (by rw [hnh]; exact Bool.false_ne_true),
      if_neg (not_not_intro hsupp), if_neg hkn, if_neg (by rw [hcv]; exact Bool.false_ne_true)]
  · intro env slug mc mi item rest hmiss
    have hstep : (mediaStep env (if mc > 1 then slug ++ "-" ++ natToString (mi + 1)
        else slug) item).1 = none := by
      unfold mediaStep
      by_cases hu : item.uri = ""
      · rw [if_pos hu]
      · rw [if_neg hu, if_pos (by rw [hmiss]; exact Bool.false_ne_true)]
    rw [mediaFold_cons]
    simp only [hstep]
  · intro env knownSlugs idx st post hkn hempty
    unfold importPost
    rw [if_neg hkn]
    rw [if_pos (by rw [hempty]; rfl)]
  · intro env outBase item hu hex hvid hff henc hp1 hp2 hthumb
    unfold mediaStep
    rw [if_neg hu, if_neg (by rw [hex]; exact fun h => h rfl),
      if_pos hvid, if_neg (by rw [hff]; exact fun h => h rfl),
      if_neg (by rw [henc]; exact fun h => h rfl),
      if_neg (by rw [hp1, hp2]; exact fun h => h rfl),
      if_neg (by rw [hthumb]; exact fun h => h rfl)]
    rfl

/-- C3 witness: the abort branch at a concrete failing conversion and
the import-script skip branch at a concrete missing file. -/
theorem skip_and_warn_amended_witness :
    runFiles envBad [] "" ⟨["bad.jpg", "good.jpg"], [], 0, 0⟩ ["bad.jpg", "good.jpg"] =
      .aborted ⟨["bad.jpg", "good.jpg"], [], 0, 0⟩ ∧
    (mediaFold ienvMissing "s" 1 0 [⟨"media/p.jpg", "", none⟩]).1 =
      (mediaFold ienvMissing "s" 1 1 []).1 :=
  ⟨skip_and_warn_amended.2.1 envBad [] "" ⟨["bad.jpg", "good.jpg"], [], 0, 0⟩
      "bad.jpg" ["good.jpg"] (by decide) (by decide) (by decide) (by decide)
      (by decide) (by decide),
    skip_and_warn_amended.2.2.1 ienvMissing "s" 1 0 ⟨"media/p.jpg", "", none⟩ []
      (by decide)⟩

/-- C3 counterexample: with a directory holding bad.jpg (whose conversion
fails) and good.jpg, the run is killed by set -e at bad.jpg: it does not
merely warn and continue — good.jpg is never processed and no entry is
written, refuting skip-and-warn as the only failure behaviour. -/
theorem skip_and_warn_counterexample :
    (processPhotosRun envBad "" ["bad.jpg", "good.jpg"] emptyManifest).wasAborted = true ∧
    (processPhotosRun envBad "" ["bad.jpg", "good.jpg"] emptyManifest).manifest.photos =
      [] := by decide
